import Mathlib

/-!
Shallow embedding of the Dark_Matter_Nucleus_Capture simulation engine
(`DMNC_Detector.py`) together with proofs about its entry sampling, capture
walk, weighted dictionary selection and photon decay cascade.

Python floats are modelled by real numbers, Python dictionaries by
association lists in insertion order, and every call to the random number
generator by an explicit input parameter (a stream `ℕ → ℝ` when a loop
draws repeatedly).  Diagnostic `print` calls are modelled by an explicit
list of emitted `Diag` tags, and crashes (`TypeError` from subscripting the
integer fallback value) by an `Option` result.
-/

noncomputable section

/-- Quantum state `(n, l, m)` as stored in the cross-section and decay-rate
dictionaries of the Python code. -/
abbrev QState : Type := ℕ × ℕ × ℤ

/-- Position triple `(x, y, z)` used as a capture-location dictionary key. -/
abbrev Pos : Type := ℝ × ℝ × ℝ

/-- Diagnostic messages printed by the Python code, modelled as tags:
`kvbwError` is the `ERROR: "key_val_by_weight()" Exited the loop somehow`
print, and `decayCapHit n` is the
`ATTENTION: Did not finish decay. n = ...` print of `photon_generation`. -/
inductive Diag : Type
  | kvbwError : Diag
  | decayCapHit : ℕ → Diag

/-- Immutable part of the Python `Detector` object: the constructor
arguments together with the derived bounds and face areas computed and
stored by `Detector.__init__`. -/
structure Detector where
  length : ℝ
  width : ℝ
  height : ℝ
  x_min : ℝ
  x_max : ℝ
  y_min : ℝ
  y_max : ℝ
  z_min : ℝ
  z_max : ℝ
  area_x : ℝ
  area_y : ℝ
  area_z : ℝ
  area_tot : ℝ
  num_density : ℝ
  xsec_cm : ℝ
  xsec_dict : List (QState × ℝ)

/-- Embedding of `Detector.__init__`: stores the given dimensions and medium
parameters and computes bounds (origin at the centre) and face areas.  The
Python constructor performs no validation whatsoever, so this is a total
function. -/
def Detector.init (length width height num_density xsec_cm : ℝ)
    (xsec_dict : List (QState × ℝ)) : Detector :=
  { length := length
    width := width
    height := height
    x_min := -length / 2
    x_max := length / 2
    y_min := -width / 2
    y_max := width / 2
    z_min := -height / 2
    z_max := height / 2
    area_x := height * width
    area_y := height * length
    area_z := width * length
    area_tot := height * width + (height * length + width * length)
    num_density := num_density
    xsec_cm := xsec_cm
    xsec_dict := xsec_dict }

/-- Mutable per-trajectory state of the Python `Detector` object: position,
unit direction, the capture-location dictionary (keys: positions, values:
the quantum state drawn at capture, `none` modelling the ill-typed integer
`0` fallback of `key_val_by_weight` on an empty dictionary), and the photon
energy list. -/
structure DetState where
  x : ℝ
  y : ℝ
  z : ℝ
  ux : ℝ
  uy : ℝ
  uz : ℝ
  capture_locs : List (Pos × Option QState)
  photon_energy_list : List ℝ

/-- State right after `Detector.__init__`: zero position, zero direction,
empty capture dictionary and photon list. -/
def DetState.initial : DetState :=
  { x := 0, y := 0, z := 0, ux := 0, uy := 0, uz := 0,
    capture_locs := [], photon_energy_list := [] }

/-- Embedding of the free function `sum_dict_vals`: left fold of `+` over
the dictionary's values in iteration order, starting from `0`. -/
def sum_dict_vals {K α : Type} [AddCommMonoid α] (dict : List (K × α)) : α :=
  dict.foldl (fun t p => t + p.2) 0

/-- Scan loop of `key_val_by_weight`: starting from accumulated weight
`count`, return the first pair whose cumulative weight reaches the drawn
value `u`; `none` models falling off the end of the loop. -/
def kvbwAux {K α : Type} [LinearOrderedField α] (u : α) :
    α → List (K × α) → Option (K × α)
  | _, [] => none
  | count, (k, v) :: rest =>
    if count + v ≥ u then some (k, v) else kvbwAux u (count + v) rest

/-- Embedding of the free function `key_val_by_weight`, given the value `u`
drawn by its internal `rand.uniform(0, total)` call.  The boolean records
whether the post-loop `ERROR` print was reached; in that case the Python
code returns the last scanned pair (`getLast?`), which for an empty
dictionary is the integer sentinel `(0, 0)`, modelled as `none`. -/
def key_val_by_weight {K α : Type} [LinearOrderedField α]
    (dict : List (K × α)) (u : α) : Option (K × α) × Bool :=
  match kvbwAux u 0 dict with
  | some p => (some p, false)
  | none => (dict.getLast?, true)

/-- Python dictionary assignment `d[k] = v`: replace the value at an
existing key in place, otherwise append the new pair. -/
def insertKV {K V : Type} [DecidableEq K] : List (K × V) → K → V → List (K × V)
  | [], k, v => [(k, v)]
  | (k', v') :: rest, k, v =>
    if k' = k then (k', v) :: rest else (k', v') :: insertKV rest k v

/-- Embedding of `Detector.particle_in_det`: containment test against the
axis-aligned bounds, inclusive on all six faces. -/
def particleInDet (d : Detector) (s : DetState) : Prop :=
  s.x ≥ d.x_min ∧ s.y ≥ d.y_min ∧ s.z ≥ d.z_min ∧
  s.x ≤ d.x_max ∧ s.y ≤ d.y_max ∧ s.z ≤ d.z_max

instance (d : Detector) (s : DetState) : Decidable (particleInDet d s) := by
  unfold particleInDet; infer_instance

/-- Closed-bounds predicate on a recorded capture position: between the
minimum and maximum bound inclusively on every axis. -/
def inClosedBounds (d : Detector) (p : Pos) : Prop :=
  d.x_min ≤ p.1 ∧ p.1 ≤ d.x_max ∧ d.y_min ≤ p.2.1 ∧ p.2.1 ≤ d.y_max ∧
  d.z_min ≤ p.2.2 ∧ p.2.2 ≤ d.z_max

/-- Strict-bounds predicate: strictly between the minimum and maximum bound
on every axis (the wording of the specification's invariant). -/
def inOpenBounds (d : Detector) (p : Pos) : Prop :=
  d.x_min < p.1 ∧ p.1 < d.x_max ∧ d.y_min < p.2.1 ∧ p.2.1 < d.y_max ∧
  d.z_min < p.2.2 ∧ p.2.2 < d.z_max

/-- Free-path distance computed by one iteration of `gen_capture_locs` from
the draw `u`: `cap_dist = -1/(num_density * xsec_cm) * log(1 - u)` in
centimetres, then multiplied by `1e-2` to convert to metres. -/
def cap_distance (d : Detector) (u : ℝ) : ℝ :=
  -1 / (d.num_density * d.xsec_cm) * Real.log (1 - u) * 1e-2

/-- Embedding of `Detector.random_entrance`, given the values drawn by its
`rand.uniform` calls: `ef` for the face draw over `[0, area_tot]`, `c` for
`cos` over `[-1, 1]`, `φ` for `phi` over `[0, 2π)`, and `p1`, `p2` for the
two in-face coordinate draws of whichever branch is taken. -/
def random_entrance (d : Detector) (s : DetState) (ef c φ p1 p2 : ℝ) : DetState :=
  let sinTheta := Real.sqrt (1 - c ^ 2)
  let pos : Pos :=
    if ef < d.area_x then
      if Real.pi / 2 < φ ∧ φ < 3 * Real.pi / 2 then (d.x_max, p1, p2)
      else (d.x_min, p1, p2)
    else if ef < d.area_x + d.area_y then
      if Real.pi < φ then (p1, d.y_max, p2) else (p1, d.y_min, p2)
    else if ef ≤ d.area_tot then
      if c < 0 then (p1, p2, d.z_max) else (p1, p2, d.z_min)
    else (s.x, s.y, s.z)
  { s with
    x := pos.1, y := pos.2.1, z := pos.2.2,
    ux := sinTheta * Real.cos φ,
    uy := sinTheta * Real.sin φ,
    uz := c }

/-- Position update of one capture-walk iteration: advance the stored
position by direction times distance, leaving everything else unchanged. -/
def advance (s : DetState) (dist : ℝ) : DetState :=
  { s with x := s.x + s.ux * dist, y := s.y + s.uy * dist,
           z := s.z + s.uz * dist }

/-- Loop body of `Detector.gen_capture_locs`, with explicit fuel (the
remaining iterations of `for i in range(100)`), the current draw index and
streams `u` (for `rand.random()`) and `w` (for the `rand.uniform(0, total)`
draw inside each `key_val_by_weight` call).  Returns the final state, the
diagnostics emitted, and an instrumentation flag that is `true` exactly
when the loop ran out of iterations (the cap was hit) rather than ending in
a `break`. -/
def genLoop (d : Detector) (u w : ℕ → ℝ) :
    ℕ → ℕ → DetState → DetState × List Diag × Bool
  | 0, _, s => (s, [], true)
  | fuel + 1, i, s =>
    if u i = 1 then (s, [], false)
    else
      let s1 := advance s (cap_distance d (u i))
      if particleInDet d s1 then
        let kv := key_val_by_weight d.xsec_dict (w i)
        let newLocs :=
          insertKV s1.capture_locs (s1.x, s1.y, s1.z) (Option.map Prod.fst kv.1)
        let s2 : DetState := { s1 with capture_locs := newLocs }
        let r := genLoop d u w fuel (i + 1) s2
        (r.1, (if kv.2 then [Diag.kvbwError] else []) ++ r.2.1, r.2.2)
      else (s1, [], false)

/-- Embedding of `Detector.gen_capture_locs`: if the stored direction is the
zero vector, first run `random_entrance` (with draws `ef c φ p1 p2`), then
run the capture loop with cap 100. -/
def gen_capture_locs (d : Detector) (s : DetState) (ef c φ p1 p2 : ℝ)
    (u w : ℕ → ℝ) : DetState × List Diag × Bool :=
  let s0 := if s.ux = 0 ∧ s.uy = 0 ∧ s.uz = 0
            then random_entrance d s ef c φ p1 p2 else s
  genLoop d u w 100 0 s0

/-- Inner decay loop of `Detector.photon_generation`, with explicit fuel
(remaining iterations of `for i in range(1000)`; the body whose fuel
argument is `fuel + 1` with `fuel = 0` is iteration `i == 999`).  `Γ` is the
external `Gamma_tot_B` rate calculator, `qE` the external transition photon
energy `q`, and `wd` the stream of draws for `key_val_by_weight`.  `none`
models the `TypeError` crash of `new_state[0]` when `key_val_by_weight`
returns its integer sentinel (empty dictionary).  The boolean is `true`
exactly when the loop exhausted its iteration cap. -/
def decayLoop (Γ : QState → List (QState × ℝ)) (qE : ℕ → ℕ → ℕ → ℕ → ℝ)
    (wd : ℕ → ℝ) : ℕ → ℕ → QState → Option (List ℝ × List Diag × Bool)
  | 0, _, _ => some ([], [], true)
  | fuel + 1, j, st =>
    if st.1 ≤ 1 then some ([], [], false)
    else
      let kv := key_val_by_weight (Γ st) (wd j)
      match kv.1 with
      | none => none
      | some (st', _) =>
        let e := qE st.1 st.2.1 st'.1 st'.2.1
        match decayLoop Γ qE wd fuel (j + 1) st' with
        | none => none
        | some (es, diag, cap) =>
          some (e :: es,
            (if kv.2 then [Diag.kvbwError] else []) ++
              (if fuel = 0 then [Diag.decayCapHit st'.1] else []) ++ diag,
            cap)

/-- Embedding of `Detector.photon_generation` over the capture-location
dictionary: for each stored capture, append the binding photon energy
`EB n l` and then run the decay cascade with cap 1000.  `wc r` is the draw
stream used by the cascade of the `r`-th capture.  `none` models a
`TypeError` crash, either from a `none` capture value (the integer sentinel
stored by the walk) or from inside the cascade. -/
def photon_generation (Γ : QState → List (QState × ℝ)) (EB : ℕ → ℕ → ℝ)
    (qE : ℕ → ℕ → ℕ → ℕ → ℝ) (wc : ℕ → ℕ → ℝ) :
    ℕ → List (Pos × Option QState) → Option (List ℝ × List Diag)
  | _, [] => some ([], [])
  | r, (_, qst) :: rest =>
    match qst with
    | none => none
    | some st =>
      let e0 := EB st.1 st.2.1
      match decayLoop Γ qE (wc r) 1000 0 st with
      | none => none
      | some (es, diag, _) =>
        match photon_generation Γ EB qE wc (r + 1) rest with
        | none => none
        | some (es', diag') => some ((e0 :: es) ++ es', diag ++ diag')

/-- Concrete detector used for counterexamples and witnesses: a 2 m cube
with unit number density and cross section and a single capture state
`(2, 0, 0)` of weight 1. -/
def d0 : Detector := Detector.init 2 2 2 1 1 [((2, 0, 0), 1)]

/-- State reached inside `gen_capture_locs d0` after entering on the front
face at `(1, 0, 0)` with direction `(-1, 0, 0)` and recording one capture
there. -/
def s1const : DetState :=
  { x := 1, y := 0, z := 0, ux := -1, uy := 0, uz := 0,
    capture_locs := [((1, 0, 0), some (2, 0, 0))], photon_energy_list := [] }

/-- Folding `+` of the second components over a list from any start value
equals the start value plus the sum of the mapped list. -/
theorem foldl_add_snd {K α : Type} [AddCommMonoid α] :
    ∀ (dict : List (K × α)) (a : α),
      dict.foldl (fun t p => t + p.2) a = a + (dict.map Prod.snd).sum := by
  intro dict
  induction dict with
  | nil => intro a; simp
  | cons p rest ih => intro a; simp [List.foldl_cons, ih, add_assoc]

/-- Relationship between `sum_dict_vals` and the usual list sum. -/
theorem sum_dict_vals_eq_sum {K α : Type} [AddCommMonoid α]
    (dict : List (K × α)) :
    sum_dict_vals dict = (dict.map Prod.snd).sum := by
  simp [sum_dict_vals, foldl_add_snd]

/-- Characterisation of the scan loop of `key_val_by_weight`: whenever the
drawn value is at most the starting count plus the total remaining weight
and the dictionary is non-empty, the scan stops at the first index whose
cumulative weight reaches the drawn value. -/
theorem kvbwAux_first {K : Type} (u : ℝ) :
    ∀ (dict : List (K × ℝ)) (c : ℝ), dict ≠ [] →
      u ≤ c + (dict.map Prod.snd).sum →
      ∃ i : ℕ, ∃ hi : i < dict.length,
        kvbwAux u c dict = some (dict.get ⟨i, hi⟩) ∧
        u ≤ c + ((dict.take (i + 1)).map Prod.snd).sum ∧
        ∀ j < i, c + ((dict.take (j + 1)).map Prod.snd).sum < u := by
  intro dict
  induction dict with
  | nil => intro c hne _; exact absurd rfl hne
  | cons p rest ih =>
    intro c _ hsum
    obtain ⟨k, v⟩ := p
    by_cases hle : c + v ≥ u
    · refine ⟨0, by simp, ?_, ?_, ?_⟩
      · simp [kvbwAux, hle]
      · simpa using hle
      · intro j hj; exact absurd hj (Nat.not_lt_zero j)
    · rcases rest with _ | ⟨q, rest'⟩
      · exfalso
        apply hle
        simpa using hsum
      · obtain ⟨i, hi, heq, hub, hmin⟩ :=
          ih (c + v) (by simp) (by simp at hsum ⊢; linarith)
        refine ⟨i + 1, by simpa using Nat.succ_lt_succ hi, ?_, ?_, ?_⟩
        · simpa [kvbwAux, hle] using heq
        · simp at hub ⊢
          linarith
        · intro j hj
          match j with
          | 0 =>
            simp
            linarith [not_le.mp hle]
          | Nat.succ j' =>
            have hj' := hmin j' (by omega)
            simp at hj' ⊢
            linarith

/-- C4: for a dictionary of non-negative weights with at least one positive
weight and a draw `u` in `[0, total]`, `key_val_by_weight` returns, without
reaching its error branch, the first pair in iteration order whose
cumulative weight is at least `u`; instantiated at a single-key dictionary
this always returns that key. -/
theorem key_val_by_weight_first_cumulative {K : Type} (dict : List (K × ℝ))
    (u : ℝ) (hnn : ∀ p ∈ dict, 0 ≤ p.2) (hpos : ∃ p ∈ dict, 0 < p.2)
    (hu0 : 0 ≤ u) (hu1 : u ≤ sum_dict_vals dict) :
    ∃ i : ℕ, ∃ hi : i < dict.length,
      key_val_by_weight dict u = (some (dict.get ⟨i, hi⟩), false) ∧
      u ≤ sum_dict_vals (dict.take (i + 1)) ∧
      ∀ j < i, sum_dict_vals (dict.take (j + 1)) < u := by
  have hne : dict ≠ [] := by rintro rfl; simp at hpos
  rw [sum_dict_vals_eq_sum] at hu1
  obtain ⟨i, hi, heq, hub, hmin⟩ :=
    kvbwAux_first u dict 0 hne (by linarith)
  refine ⟨i, hi, ?_, ?_, ?_⟩
  · simp [key_val_by_weight, heq]
  · rw [sum_dict_vals_eq_sum]; linarith
  · intro j hj
    have := hmin j hj
    rw [sum_dict_vals_eq_sum]
    linarith

/-- Witness for C4 at the single-key dictionary with weight `2` and the
draw `u = 1`: the unique key is returned. -/
theorem key_val_by_weight_first_cumulative_witness :
    (∀ p ∈ [((5 : ℕ), (2 : ℝ))], 0 ≤ p.2) ∧ (0 : ℝ) ≤ 1 ∧
    (1 : ℝ) ≤ sum_dict_vals [((5 : ℕ), (2 : ℝ))] ∧
    ∃ i : ℕ, ∃ hi : i < [((5 : ℕ), (2 : ℝ))].length,
      key_val_by_weight [((5 : ℕ), (2 : ℝ))] 1 =
        (some ([((5 : ℕ), (2 : ℝ))].get ⟨i, hi⟩), false) ∧
      (1 : ℝ) ≤ sum_dict_vals ([((5 : ℕ), (2 : ℝ))].take (i + 1)) ∧
      ∀ j < i, sum_dict_vals ([((5 : ℕ), (2 : ℝ))].take (j + 1)) < 1 :=
  ⟨by norm_num, by norm_num, by norm_num [sum_dict_vals],
    key_val_by_weight_first_cumulative _ _ (by norm_num)
      ⟨(5, 2), by simp, by norm_num⟩ (by norm_num)
      (by norm_num [sum_dict_vals])⟩

/-- C10: for a non-empty dictionary of non-negative weights and a draw in
`[0, total]`, the scan of `key_val_by_weight` always returns from inside
the loop: the error branch (diagnostic print and fallback return) is never
reached. -/
theorem key_val_by_weight_no_fallthrough {K : Type} (dict : List (K × ℝ))
    (u : ℝ) (hne : dict ≠ []) (hnn : ∀ p ∈ dict, 0 ≤ p.2)
    (hu0 : 0 ≤ u) (hu1 : u ≤ sum_dict_vals dict) :
    (key_val_by_weight dict u).2 = false ∧
    (key_val_by_weight dict u).1.isSome = true := by
  rw [sum_dict_vals_eq_sum] at hu1
  obtain ⟨i, hi, heq, -, -⟩ := kvbwAux_first u dict 0 hne (by linarith)
  simp [key_val_by_weight, heq]

/-- Witness for C10 at a single-key dictionary and the boundary draw
`u = total`: the scan still returns from inside the loop. -/
theorem key_val_by_weight_no_fallthrough_witness :
    ([((5 : ℕ), (2 : ℝ))] ≠ []) ∧ (0 : ℝ) ≤ 2 ∧
    (2 : ℝ) ≤ sum_dict_vals [((5 : ℕ), (2 : ℝ))] ∧
    ((key_val_by_weight [((5 : ℕ), (2 : ℝ))] 2).2 = false ∧
      (key_val_by_weight [((5 : ℕ), (2 : ℝ))] 2).1.isSome = true) :=
  ⟨by simp, by norm_num, by norm_num [sum_dict_vals],
    key_val_by_weight_no_fallthrough _ _ (by simp) (by norm_num) (by norm_num)
      (by norm_num [sum_dict_vals])⟩

/-- C2: with positive number density and cross section and a draw `u` in
`[0, 1)` (so the `rand_num == 1` guard never fires), the step distance of
the capture walk equals `-log(1 - u)` divided by `num_density * xsec_cm`
(native centimetre units) times the `1e-2` centimetre-to-metre conversion,
and this distance is non-negative. -/
theorem cap_distance_formula (d : Detector) (u : ℝ)
    (hd : 0 < d.num_density) (hx : 0 < d.xsec_cm)
    (hu0 : 0 ≤ u) (hu1 : u < 1) :
    u ≠ 1 ∧
    cap_distance d u =
      -Real.log (1 - u) / (d.num_density * d.xsec_cm) * 1e-2 ∧
    0 ≤ cap_distance d u := by
  have hdx : 0 < d.num_density * d.xsec_cm := mul_pos hd hx
  have hlog : Real.log (1 - u) ≤ 0 :=
    Real.log_nonpos (by linarith) (by linarith)
  have h2 : cap_distance d u =
      -Real.log (1 - u) / (d.num_density * d.xsec_cm) * 1e-2 := by
    unfold cap_distance; ring
  refine ⟨ne_of_lt hu1, h2, ?_⟩
  rw [h2]
  exact mul_nonneg (div_nonneg (by linarith) (le_of_lt hdx)) (by norm_num)

/-- Witness for C2 at the concrete detector `d0` and the draw `u = 0`. -/
theorem cap_distance_formula_witness :
    (0 : ℝ) < d0.num_density ∧ (0 : ℝ) < d0.xsec_cm ∧ (0 : ℝ) ≤ 0 ∧
    (0 : ℝ) < 1 ∧
    ((0 : ℝ) ≠ 1 ∧
      cap_distance d0 0 =
        -Real.log (1 - 0) / (d0.num_density * d0.xsec_cm) * 1e-2 ∧
      0 ≤ cap_distance d0 0) :=
  ⟨by norm_num [d0, Detector.init], by norm_num [d0, Detector.init],
    le_refl 0, by norm_num,
    cap_distance_formula d0 0 (by norm_num [d0, Detector.init])
      (by norm_num [d0, Detector.init]) (le_refl 0) (by norm_num)⟩

/-- C5: after any call to `random_entrance` with a drawn `c` in `[-1, 1]`,
the stored direction components are exactly
`(sinθ·cosφ, sinθ·sinφ, cosθ)` with `sinθ = sqrt(1 - cosθ^2)`, and the
Euclidean norm of the direction is exactly `1`, hence within `1e-9` of
`1`. -/
theorem random_entrance_unit_direction (d : Detector) (s : DetState)
    (ef c φ p1 p2 : ℝ) (hc1 : -1 ≤ c) (hc2 : c ≤ 1) :
    (random_entrance d s ef c φ p1 p2).ux =
      Real.sqrt (1 - c ^ 2) * Real.cos φ ∧
    (random_entrance d s ef c φ p1 p2).uy =
      Real.sqrt (1 - c ^ 2) * Real.sin φ ∧
    (random_entrance d s ef c φ p1 p2).uz = c ∧
    Real.sqrt ((random_entrance d s ef c φ p1 p2).ux ^ 2 +
        (random_entrance d s ef c φ p1 p2).uy ^ 2 +
        (random_entrance d s ef c φ p1 p2).uz ^ 2) = 1 ∧
    |Real.sqrt ((random_entrance d s ef c φ p1 p2).ux ^ 2 +
        (random_entrance d s ef c φ p1 p2).uy ^ 2 +
        (random_entrance d s ef c φ p1 p2).uz ^ 2) - 1| ≤ 1e-9 := by
  have hux : (random_entrance d s ef c φ p1 p2).ux =
      Real.sqrt (1 - c ^ 2) * Real.cos φ := rfl
  have huy : (random_entrance d s ef c φ p1 p2).uy =
      Real.sqrt (1 - c ^ 2) * Real.sin φ := rfl
  have huz : (random_entrance d s ef c φ p1 p2).uz = c := rfl
  have hc2' : 0 ≤ 1 - c ^ 2 := by nlinarith
  have hsq : Real.sqrt (1 - c ^ 2) ^ 2 = 1 - c ^ 2 := Real.sq_sqrt hc2'
  have hone : (Real.sqrt (1 - c ^ 2) * Real.cos φ) ^ 2 +
      (Real.sqrt (1 - c ^ 2) * Real.sin φ) ^ 2 + c ^ 2 = 1 := by
    rw [mul_pow, mul_pow, hsq]
    linear_combination (1 - c ^ 2) * Real.sin_sq_add_cos_sq φ
  refine ⟨hux, huy, huz, ?_, ?_⟩
  · rw [hux, huy, huz, hone, Real.sqrt_one]
  · rw [hux, huy, huz, hone, Real.sqrt_one]
    norm_num

/-- Witness for C5 at the concrete detector `d0` with draws
`c = 0`, `φ = 0`. -/
theorem random_entrance_unit_direction_witness :
    (-1 : ℝ) ≤ 0 ∧ (0 : ℝ) ≤ 1 ∧
    ((random_entrance d0 DetState.initial 0 0 0 0 0).ux =
        Real.sqrt (1 - 0 ^ 2) * Real.cos 0 ∧
      (random_entrance d0 DetState.initial 0 0 0 0 0).uy =
        Real.sqrt (1 - 0 ^ 2) * Real.sin 0 ∧
      (random_entrance d0 DetState.initial 0 0 0 0 0).uz = 0 ∧
      Real.sqrt ((random_entrance d0 DetState.initial 0 0 0 0 0).ux ^ 2 +
          (random_entrance d0 DetState.initial 0 0 0 0 0).uy ^ 2 +
          (random_entrance d0 DetState.initial 0 0 0 0 0).uz ^ 2) = 1 ∧
      |Real.sqrt ((random_entrance d0 DetState.initial 0 0 0 0 0).ux ^ 2 +
          (random_entrance d0 DetState.initial 0 0 0 0 0).uy ^ 2 +
          (random_entrance d0 DetState.initial 0 0 0 0 0).uz ^ 2) - 1| ≤
        1e-9) :=
  ⟨by norm_num, by norm_num,
    random_entrance_unit_direction d0 DetState.initial 0 0 0 0 0
      (by norm_num) (by norm_num)⟩

/-- C7 fails on the code: `Detector.__init__` performs no validation, so a
detector with negative length, zero number density and negative cross
section is constructed successfully, storing the invalid values and the
degenerate bounds `x_max < x_min`, instead of the constructor failing. -/
theorem detector_init_accepts_invalid :
    (Detector.init (-1) 15.1 14 0 (-7) []).length = -1 ∧
    (Detector.init (-1) 15.1 14 0 (-7) []).num_density = 0 ∧
    (Detector.init (-1) 15.1 14 0 (-7) []).xsec_cm = -7 ∧
    (Detector.init (-1) 15.1 14 0 (-7) []).x_max <
      (Detector.init (-1) 15.1 14 0 (-7) []).x_min := by
  refine ⟨rfl, rfl, rfl, ?_⟩
  norm_num [Detector.init]

/-- C9: `gen_capture_locs` invokes `random_entrance` first exactly when the
stored direction is the zero vector, and otherwise starts the free-path
walk from the unchanged state without invoking the entry sampler. -/
theorem gen_capture_locs_entry_conditional (d : Detector) (s : DetState)
    (ef c φ p1 p2 : ℝ) (u w : ℕ → ℝ) :
    (s.ux = 0 ∧ s.uy = 0 ∧ s.uz = 0 →
      gen_capture_locs d s ef c φ p1 p2 u w =
        genLoop d u w 100 0 (random_entrance d s ef c φ p1 p2)) ∧
    (¬(s.ux = 0 ∧ s.uy = 0 ∧ s.uz = 0) →
      gen_capture_locs d s ef c φ p1 p2 u w = genLoop d u w 100 0 s) := by
  constructor
  · intro h
    simp only [gen_capture_locs, if_pos h]
  · intro h
    simp only [gen_capture_locs, if_neg h]

/-- Witness for C9 at the freshly initialised state, whose direction is the
zero vector. -/
theorem gen_capture_locs_entry_conditional_witness :
    (DetState.initial.ux = 0 ∧ DetState.initial.uy = 0 ∧
      DetState.initial.uz = 0) ∧
    gen_capture_locs d0 DetState.initial 0 0 0 0 0 (fun _ => 0)
        (fun _ => 0) =
      genLoop d0 (fun _ => 0) (fun _ => 0) 100 0
        (random_entrance d0 DetState.initial 0 0 0 0 0) :=
  ⟨⟨rfl, rfl, rfl⟩,
    (gen_capture_locs_entry_conditional d0 DetState.initial 0 0 0 0 0
        (fun _ => 0) (fun _ => 0)).1 ⟨rfl, rfl, rfl⟩⟩

/-- C3 fails on the code: with identical draws except the direction azimuth
`φ` (and no coin-flip draw consumed at all), `random_entrance` places the
particle on the front face for `φ = π` and on the back face for `φ = 0`, so
the within-pair face choice is a function of the sampled direction rather
than an independent 50/50 coin flip. -/
theorem random_entrance_face_depends_on_direction :
    (random_entrance d0 DetState.initial 0 0 Real.pi 0 0).x = d0.x_max ∧
    (random_entrance d0 DetState.initial 0 0 0 0 0).x = d0.x_min ∧
    d0.x_max ≠ d0.x_min := by
  have harea : (0 : ℝ) < d0.area_x := by norm_num [d0, Detector.init]
  have hπ : Real.pi / 2 < Real.pi ∧ Real.pi < 3 * Real.pi / 2 := by
    constructor <;> linarith [Real.pi_pos]
  have h0 : ¬(Real.pi / 2 < (0 : ℝ)) := by
    linarith [Real.pi_pos]
  refine ⟨?_, ?_, ?_⟩
  · simp [random_entrance, harea, hπ]
  · simp [random_entrance, harea, h0]
  · norm_num [d0, Detector.init]

/-- C3 amended: the pair of opposite faces is selected proportionally to
area via the thresholds `area_x` and `area_x + area_y` on the face draw,
and within the selected pair the entered face is determined by the sampled
direction — the particle is placed on the face its direction points into
(entering front `x = x_max` comes with `ux ≤ 0`, back with `0 ≤ ux`, and
similarly for the other two pairs) — not by an independent coin flip. -/
theorem random_entrance_face_matches_direction (d : Detector) (s : DetState)
    (ef c φ p1 p2 : ℝ) (hφ0 : 0 ≤ φ) (hφ1 : φ < 2 * Real.pi) :
    (ef < d.area_x →
      ((random_entrance d s ef c φ p1 p2).x = d.x_max ∧
        (random_entrance d s ef c φ p1 p2).ux ≤ 0) ∨
      ((random_entrance d s ef c φ p1 p2).x = d.x_min ∧
        0 ≤ (random_entrance d s ef c φ p1 p2).ux)) ∧
    (d.area_x ≤ ef → ef < d.area_x + d.area_y →
      ((random_entrance d s ef c φ p1 p2).y = d.y_max ∧
        (random_entrance d s ef c φ p1 p2).uy ≤ 0) ∨
      ((random_entrance d s ef c φ p1 p2).y = d.y_min ∧
        0 ≤ (random_entrance d s ef c φ p1 p2).uy)) ∧
    (d.area_x ≤ ef → d.area_x + d.area_y ≤ ef → ef ≤ d.area_tot →
      ((random_entrance d s ef c φ p1 p2).z = d.z_max ∧
        (random_entrance d s ef c φ p1 p2).uz ≤ 0) ∨
      ((random_entrance d s ef c φ p1 p2).z = d.z_min ∧
        0 ≤ (random_entrance d s ef c φ p1 p2).uz)) := by
  have hs : 0 ≤ Real.sqrt (1 - c ^ 2) := Real.sqrt_nonneg _
  have hux : (random_entrance d s ef c φ p1 p2).ux =
      Real.sqrt (1 - c ^ 2) * Real.cos φ := rfl
  have huy : (random_entrance d s ef c φ p1 p2).uy =
      Real.sqrt (1 - c ^ 2) * Real.sin φ := rfl
  have huz : (random_entrance d s ef c φ p1 p2).uz = c := rfl
  refine ⟨?_, ?_, ?_⟩
  · intro h1
    by_cases h2 : Real.pi / 2 < φ ∧ φ < 3 * Real.pi / 2
    · left
      constructor
      · simp [random_entrance, h1, h2]
      · have hcos : Real.cos φ ≤ 0 :=
          Real.cos_nonpos_of_pi_div_two_le_of_le (le_of_lt h2.1)
            (by linarith [h2.2])
        rw [hux]
        exact mul_nonpos_iff.mpr (Or.inl ⟨hs, hcos⟩)
    · right
      constructor
      · simp [random_entrance, h1, h2]
      · have hcos : 0 ≤ Real.cos φ := by
          by_cases h3 : φ ≤ Real.pi / 2
          · exact Real.cos_nonneg_of_mem_Icc
              (Set.mem_Icc.mpr ⟨by linarith [Real.pi_pos], h3⟩)
          · have h4 : 3 * Real.pi / 2 ≤ φ := by
              rcases not_and_or.mp h2 with h | h
              · exact absurd (lt_of_not_le h3) h
              · linarith [not_lt.mp h]
            have h5 : 0 ≤ Real.cos (φ - 2 * Real.pi) :=
              Real.cos_nonneg_of_mem_Icc
                (Set.mem_Icc.mpr ⟨by linarith, by linarith [Real.pi_pos]⟩)
            rwa [Real.cos_sub_two_pi] at h5
        rw [hux]
        exact mul_nonneg hs hcos
  · intro h1 h2
    by_cases h3 : Real.pi < φ
    · left
      constructor
      · simp [random_entrance, not_lt.mpr h1, h2, h3]
      · have h4 : 0 ≤ Real.sin (φ - Real.pi) :=
          Real.sin_nonneg_of_nonneg_of_le_pi (by linarith) (by linarith)
        rw [Real.sin_sub_pi] at h4
        rw [huy]
        exact mul_nonpos_iff.mpr (Or.inl ⟨hs, by linarith⟩)
    · right
      constructor
      · simp [random_entrance, not_lt.mpr h1, h2, h3]
      · have h4 : 0 ≤ Real.sin φ :=
          Real.sin_nonneg_of_nonneg_of_le_pi hφ0 (not_lt.mp h3)
        rw [huy]
        exact mul_nonneg hs h4
  · intro h1 h2 h3
    by_cases h4 : c < 0
    · left
      constructor
      · simp [random_entrance, not_lt.mpr h1, not_lt.mpr h2, h3, h4]
      · rw [huz]; exact le_of_lt h4
    · right
      constructor
      · simp [random_entrance, not_lt.mpr h1, not_lt.mpr h2, h3, h4]
      · rw [huz]; exact not_lt.mp h4

/-- Witness for the amended C3 at the concrete detector `d0` with draws
`ef = 0`, `c = 0`, `φ = 0`. -/
theorem random_entrance_face_matches_direction_witness :
    (0 : ℝ) ≤ 0 ∧ (0 : ℝ) < 2 * Real.pi ∧
    (((0 : ℝ) < d0.area_x →
      ((random_entrance d0 DetState.initial 0 0 0 0 0).x = d0.x_max ∧
        (random_entrance d0 DetState.initial 0 0 0 0 0).ux ≤ 0) ∨
      ((random_entrance d0 DetState.initial 0 0 0 0 0).x = d0.x_min ∧
        0 ≤ (random_entrance d0 DetState.initial 0 0 0 0 0).ux)) ∧
    (d0.area_x ≤ 0 → (0 : ℝ) < d0.area_x + d0.area_y →
      ((random_entrance d0 DetState.initial 0 0 0 0 0).y = d0.y_max ∧
        (random_entrance d0 DetState.initial 0 0 0 0 0).uy ≤ 0) ∨
      ((random_entrance d0 DetState.initial 0 0 0 0 0).y = d0.y_min ∧
        0 ≤ (random_entrance d0 DetState.initial 0 0 0 0 0).uy)) ∧
    (d0.area_x ≤ 0 → d0.area_x + d0.area_y ≤ 0 → (0 : ℝ) ≤ d0.area_tot →
      ((random_entrance d0 DetState.initial 0 0 0 0 0).z = d0.z_max ∧
        (random_entrance d0 DetState.initial 0 0 0 0 0).uz ≤ 0) ∨
      ((random_entrance d0 DetState.initial 0 0 0 0 0).z = d0.z_min ∧
        0 ≤ (random_entrance d0 DetState.initial 0 0 0 0 0).uz))) :=
  ⟨le_refl 0, Real.two_pi_pos,
    random_entrance_face_matches_direction d0 DetState.initial 0 0 0 0 0
      (le_refl 0) Real.two_pi_pos⟩

/-- Step distance evaluates to zero on the draw `u = 0` for `d0`. -/
theorem cap_distance_d0_zero : cap_distance d0 0 = 0 := by
  simp [cap_distance, d0, Detector.init]

/-- Weighted selection over the single-key dictionary of `d0` with draw
`0` returns the single pair without reaching the error branch. -/
theorem kvbw_d0_eval :
    key_val_by_weight d0.xsec_dict (0 : ℝ) = (some ((2, 0, 0), 1), false) := by
  norm_num [key_val_by_weight, kvbwAux, d0, Detector.init]

/-- With all draws `0`, the capture walk on `d0` started at `s1const` is a
fixed point: the step distance is zero, the particle stays on the front
face (contained inclusively), and the same capture key is overwritten each
iteration, so every remaining iteration runs and the cap is hit with no
diagnostics. -/
theorem genLoop_d0_fixed :
    ∀ fuel i, genLoop d0 (fun _ => 0) (fun _ => 0) fuel i s1const =
      (s1const, [], true) := by
  intro fuel
  induction fuel with
  | zero => intro i; rfl
  | succ n ih =>
    intro i
    have hin2 : particleInDet d0 s1const := by
      norm_num [particleInDet, s1const, d0, Detector.init]
    have hins2 : insertKV s1const.capture_locs
        (s1const.x, s1const.y, s1const.z)
        (some ((2 : ℕ), (0 : ℕ), (0 : ℤ))) = s1const.capture_locs := by
      simp [s1const, insertKV]
    simp only [genLoop]
    norm_num [advance, cap_distance_d0_zero, kvbw_d0_eval, -Prod.mk_zero_zero]
    rw [if_pos hin2, hins2]
    exact ih (i + 1)

/-- Entrance evaluation for `d0` with draws `ef = 0`, `c = 0`, `φ = π`:
the particle enters the front face at `(x_max, 0, 0) = (1, 0, 0)` with
direction `(-1, 0, 0)`. -/
theorem entrance_eval :
    random_entrance d0 DetState.initial 0 0 Real.pi 0 0 =
      { x := 1, y := 0, z := 0, ux := -1, uy := 0, uz := 0,
        capture_locs := [], photon_energy_list := [] } := by
  have harea : (0 : ℝ) < d0.area_x := by norm_num [d0, Detector.init]
  have hπ : Real.pi / 2 < Real.pi ∧ Real.pi < 3 * Real.pi / 2 := by
    constructor <;> linarith [Real.pi_pos]
  simp only [random_entrance]
  rw [if_pos harea, if_pos hπ]
  norm_num [DetState.initial, d0, Detector.init, Real.cos_pi, Real.sin_pi]

/-- First iteration of the walk from the entry state of `entrance_eval`:
distance zero, capture recorded at `(1, 0, 0)`, reaching `s1const`. -/
theorem genLoop_d0_first_step (n i : ℕ) :
    genLoop d0 (fun _ => 0) (fun _ => 0) (n + 1) i
      { x := 1, y := 0, z := 0, ux := -1, uy := 0, uz := 0,
        capture_locs := [], photon_energy_list := [] } =
      genLoop d0 (fun _ => 0) (fun _ => 0) n (i + 1) s1const := by
  have hstart : particleInDet d0
      { x := 1, y := 0, z := 0, ux := -1, uy := 0, uz := 0,
        capture_locs := ([] : List (Pos × Option QState)),
        photon_energy_list := ([] : List ℝ) } := by
    norm_num [particleInDet, d0, Detector.init]
  simp only [genLoop]
  norm_num [advance, cap_distance_d0_zero, kvbw_d0_eval, -Prod.mk_zero_zero,
    insertKV]
  rw [if_pos hstart]
  rfl

/-- Full evaluation of the concrete run: `gen_capture_locs` on `d0` from
the freshly initialised state with entrance draws `(0, 0, π, 0, 0)` and
all-zero walk draws records one capture at `(1, 0, 0)`, emits no
diagnostics, and terminates by exhausting all 100 iterations. -/
theorem gen_run_eval :
    gen_capture_locs d0 DetState.initial 0 0 Real.pi 0 0 (fun _ => 0)
      (fun _ => 0) = (s1const, [], true) := by
  have hzero : DetState.initial.ux = 0 ∧ DetState.initial.uy = 0 ∧
      DetState.initial.uz = 0 := ⟨rfl, rfl, rfl⟩
  simp only [gen_capture_locs]
  rw [if_pos hzero, entrance_eval]
  calc genLoop d0 (fun _ => 0) (fun _ => 0) 100 0
        { x := 1, y := 0, z := 0, ux := -1, uy := 0, uz := 0,
          capture_locs := [], photon_energy_list := [] }
      = genLoop d0 (fun _ => 0) (fun _ => 0) 99 1 s1const :=
        genLoop_d0_first_step 99 0
    _ = (s1const, [], true) := genLoop_d0_fixed 99 1

/-- C1 fails on the code: containment is inclusive, so a capture can be
recorded exactly on a face.  In this concrete run the trajectory (sampled
by `random_entrance` itself) enters on the front face at `(1, 0, 0)` with
`x_max = 1`, the first free-path draw is `0` giving step distance `0`, and
a capture is recorded at `(1, 0, 0)` — a capture-mapping key whose first
coordinate is not strictly below `x_max`. -/
theorem capture_recorded_on_boundary :
    ((1 : ℝ), (0 : ℝ), (0 : ℝ)) ∈
      (gen_capture_locs d0 DetState.initial 0 0 Real.pi 0 0 (fun _ => 0)
        (fun _ => 0)).1.capture_locs.map Prod.fst ∧
    ¬((1 : ℝ) < d0.x_max) := by
  rw [gen_run_eval]
  constructor
  · simp [s1const]
  · norm_num [d0, Detector.init]

/-- C8 fails on the code for the capture walk: this concrete
`gen_capture_locs` run terminates by exhausting its 100-iteration cap
(instrumentation flag `true`), yet emits no diagnostic — and the walk sets
no flag the caller could read, while the accumulated capture data is
retained. -/
theorem gen_capture_locs_cap_hit_silent :
    (gen_capture_locs d0 DetState.initial 0 0 Real.pi 0 0 (fun _ => 0)
        (fun _ => 0)).2.2 = true ∧
    (gen_capture_locs d0 DetState.initial 0 0 Real.pi 0 0 (fun _ => 0)
        (fun _ => 0)).2.1 = [] ∧
    (gen_capture_locs d0 DetState.initial 0 0 Real.pi 0 0 (fun _ => 0)
        (fun _ => 0)).1.capture_locs ≠ [] := by
  rw [gen_run_eval]
  refine ⟨rfl, rfl, ?_⟩
  simp [s1const]

/-- Containment of the particle and closed-bounds membership of its
position triple are the same condition, reordered. -/
theorem particleInDet_iff (d : Detector) (s : DetState) :
    particleInDet d s ↔ inClosedBounds d (s.x, s.y, s.z) := by
  unfold particleInDet inClosedBounds
  constructor
  · rintro ⟨h1, h2, h3, h4, h5, h6⟩
    exact ⟨h1, h4, h2, h5, h3, h6⟩
  · rintro ⟨h1, h2, h3, h4, h5, h6⟩
    exact ⟨h1, h3, h5, h2, h4, h6⟩

/-- Keys after a dictionary assignment are the new key or an old key. -/
theorem mem_insertKV_keys {K V : Type} [DecidableEq K] :
    ∀ (l : List (K × V)) (k : K) (v : V) (p : K),
      p ∈ (insertKV l k v).map Prod.fst → p = k ∨ p ∈ l.map Prod.fst := by
  intro l k v
  induction l with
  | nil =>
    intro p hp
    simp [insertKV] at hp
    exact Or.inl hp
  | cons q rest ih =>
    intro p hp
    obtain ⟨k', v'⟩ := q
    by_cases h : k' = k
    · rw [insertKV, if_pos h] at hp
      simp at hp
      rcases hp with h1 | h1
      · right; simp [h1]
      · right; simp; exact Or.inr h1
    · rw [insertKV, if_neg h] at hp
      simp at hp
      rcases hp with h1 | h1
      · right; simp [h1]
      · rcases ih p (by simpa using h1) with h2 | h2
        · exact Or.inl h2
        · right; simp; exact Or.inr (by simpa using h2)

/-- Loop invariant of the capture walk: every capture key is recorded only
while the updated position passes the inclusive containment test, so the
closed-bounds property of all recorded keys is preserved. -/
theorem genLoop_keys_in_bounds (d : Detector) (u w : ℕ → ℝ) :
    ∀ (fuel i : ℕ) (s : DetState),
      (∀ p ∈ s.capture_locs.map Prod.fst, inClosedBounds d p) →
      ∀ p ∈ (genLoop d u w fuel i s).1.capture_locs.map Prod.fst,
        inClosedBounds d p := by
  intro fuel
  induction fuel with
  | zero => intro i s hs p hp; exact hs p hp
  | succ n ih =>
    intro i s hs p hp
    simp only [genLoop] at hp
    by_cases h1 : u i = 1
    · rw [if_pos h1] at hp
      exact hs p hp
    · rw [if_neg h1] at hp
      by_cases h2 : particleInDet d (advance s (cap_distance d (u i)))
      · rw [if_pos h2] at hp
        refine ih (i + 1) _ ?_ p hp
        intro q hq
        rcases mem_insertKV_keys _ _ _ q hq with h3 | h3
        · rw [h3]
          exact (particleInDet_iff d _).mp h2
        · exact hs q h3
      · rw [if_neg h2] at hp
        exact hs p hp

/-- C1 amended: starting from a state whose recorded capture keys (if any)
already lie within the detector's closed bounds — in particular from a
fresh state with an empty capture mapping — every position recorded as a
key of the capture mapping by `gen_capture_locs` lies within the closed
bounds, i.e. between the minimum and maximum bound inclusively on every
axis (boundary positions can be recorded, so strict containment fails
but inclusive containment holds). -/
theorem gen_capture_locs_within_closed_bounds (d : Detector) (s : DetState)
    (ef c φ p1 p2 : ℝ) (u w : ℕ → ℝ)
    (hs : ∀ p ∈ s.capture_locs.map Prod.fst, inClosedBounds d p) :
    ∀ p ∈ (gen_capture_locs d s ef c φ p1 p2 u w).1.capture_locs.map
        Prod.fst, inClosedBounds d p := by
  intro p hp
  simp only [gen_capture_locs] at hp
  by_cases h : s.ux = 0 ∧ s.uy = 0 ∧ s.uz = 0
  · rw [if_pos h] at hp
    refine genLoop_keys_in_bounds d u w 100 0 _ ?_ p hp
    intro q hq
    exact hs q hq
  · rw [if_neg h] at hp
    exact genLoop_keys_in_bounds d u w 100 0 s hs p hp

/-- Witness for the amended C1 at the concrete run of `gen_run_eval`. -/
theorem gen_capture_locs_within_closed_bounds_witness :
    (∀ p ∈ DetState.initial.capture_locs.map Prod.fst,
      inClosedBounds d0 p) ∧
    ∀ p ∈ (gen_capture_locs d0 DetState.initial 0 0 Real.pi 0 0
        (fun _ => 0) (fun _ => 0)).1.capture_locs.map Prod.fst,
      inClosedBounds d0 p :=
  ⟨by simp [DetState.initial],
    gen_capture_locs_within_closed_bounds d0 DetState.initial 0 0 Real.pi 0
      0 (fun _ => 0) (fun _ => 0) (by simp [DetState.initial])⟩

/-- Unfolding equation for one iteration of the decay loop. -/
theorem decayLoop_succ (Γ : QState → List (QState × ℝ))
    (qE : ℕ → ℕ → ℕ → ℕ → ℝ) (wd : ℕ → ℝ) (fuel j : ℕ) (st : QState) :
    decayLoop Γ qE wd (fuel + 1) j st =
      (if st.1 ≤ 1 then some ([], [], false)
      else
        match (key_val_by_weight (Γ st) (wd j)).1 with
        | none => none
        | some (st', _) =>
          match decayLoop Γ qE wd fuel (j + 1) st' with
          | none => none
          | some (es, diag, cap) =>
            some (qE st.1 st.2.1 st'.1 st'.2.1 :: es,
              (if (key_val_by_weight (Γ st) (wd j)).2 then [Diag.kvbwError]
                else []) ++
                (if fuel = 0 then [Diag.decayCapHit st'.1] else []) ++ diag,
              cap)) := rfl

/-- Whenever the decay loop terminates by exhausting its iteration cap
(result flag `true`), the `ATTENTION` diagnostic of iteration 999 is among
the emitted diagnostics. -/
theorem decayLoop_cap_hit_diagnostic (Γ : QState → List (QState × ℝ))
    (qE : ℕ → ℕ → ℕ → ℕ → ℝ) (wd : ℕ → ℝ) :
    ∀ (fuel j : ℕ) (st : QState) (es : List ℝ) (diag : List Diag),
      decayLoop Γ qE wd (fuel + 1) j st = some (es, diag, true) →
      ∃ n, Diag.decayCapHit n ∈ diag := by
  intro fuel
  induction fuel with
  | zero =>
    intro j st es diag heq
    rw [decayLoop_succ] at heq
    by_cases h1 : st.1 ≤ 1
    · rw [if_pos h1] at heq
      simp at heq
    · rw [if_neg h1] at heq
      rcases hkv : (key_val_by_weight (Γ st) (wd j)).1 with _ | ⟨st', wt⟩
      · rw [hkv] at heq
        simp at heq
      · rw [hkv] at heq
        simp only [decayLoop] at heq
        simp at heq
        exact ⟨st'.1, by rw [← heq.2]; simp⟩
  | succ n ih =>
    intro j st es diag heq
    rw [decayLoop_succ] at heq
    by_cases h1 : st.1 ≤ 1
    · rw [if_pos h1] at heq
      simp at heq
    · rw [if_neg h1] at heq
      rcases hkv : (key_val_by_weight (Γ st) (wd j)).1 with _ | ⟨st', wt⟩
      · rw [hkv] at heq
        simp at heq
      · rw [hkv] at heq
        dsimp only at heq
        rcases hrec : decayLoop Γ qE wd (n + 1) (j + 1) st' with
          _ | ⟨es', diag', cap'⟩
        · rw [hrec] at heq
          simp at heq
        · rw [hrec] at heq
          simp at heq
          obtain ⟨m, hm⟩ := ih (j + 1) st' es' diag' (by rw [hrec, heq.2.2])
          exact ⟨m, by rw [← heq.2.1]; simp [hm]⟩

/-- The capture walk emits no diagnostics at all when the weight draws stay
in `[0, total]` for a non-empty cross-section dictionary — in particular it
stays silent when it terminates by hitting its iteration cap. -/
theorem genLoop_no_diagnostics (d : Detector) (u w : ℕ → ℝ)
    (hne : d.xsec_dict ≠ []) (hw : ∀ j, 0 ≤ w j ∧
      w j ≤ sum_dict_vals d.xsec_dict) :
    ∀ (fuel i : ℕ) (s : DetState), (genLoop d u w fuel i s).2.1 = [] := by
  intro fuel
  induction fuel with
  | zero => intro i s; rfl
  | succ n ih =>
    intro i s
    simp only [genLoop]
    by_cases h1 : u i = 1
    · rw [if_pos h1]
    · rw [if_neg h1]
      by_cases h2 : particleInDet d (advance s (cap_distance d (u i)))
      · rw [if_pos h2]
        have hsum : w i ≤ 0 + (d.xsec_dict.map Prod.snd).sum := by
          have := (hw i).2
          rw [sum_dict_vals_eq_sum] at this
          linarith
        obtain ⟨idx, hidx, heqa, -, -⟩ :=
          kvbwAux_first (w i) d.xsec_dict 0 hne hsum
        have hfalse : (key_val_by_weight d.xsec_dict (w i)).2 = false := by
          simp [key_val_by_weight, heqa]
        simp [hfalse, ih]
      · rw [if_neg h2]

/-- C8 amended: truncation is observable for the decay cascade but not for
the capture walk.  Whenever the decay loop of `photon_generation` ends by
exhausting its iteration cap it has emitted the `ATTENTION` diagnostic
(and the photon energies accumulated so far are still returned), whereas
the capture walk of `gen_capture_locs` emits no diagnostic and sets no
flag whatsoever — its diagnostic stream is empty on every run with
in-range weight draws, including runs that terminate by hitting the
100-iteration cap (the accumulated captures are retained in the state). -/
theorem truncation_diagnostics (Γ : QState → List (QState × ℝ))
    (qE : ℕ → ℕ → ℕ → ℕ → ℝ) (wd : ℕ → ℝ) (d : Detector) (u w : ℕ → ℝ)
    (hne : d.xsec_dict ≠ [])
    (hw : ∀ j, 0 ≤ w j ∧ w j ≤ sum_dict_vals d.xsec_dict) :
    (∀ (fuel j : ℕ) (st : QState) (es : List ℝ) (diag : List Diag),
      decayLoop Γ qE wd (fuel + 1) j st = some (es, diag, true) →
      ∃ n, Diag.decayCapHit n ∈ diag) ∧
    (∀ (fuel i : ℕ) (s : DetState), (genLoop d u w fuel i s).2.1 = []) :=
  ⟨decayLoop_cap_hit_diagnostic Γ qE wd, genLoop_no_diagnostics d u w hne hw⟩

/-- Witness for the amended C8 at the concrete detector `d0` with all-zero
draws and the empty external rate calculator. -/
theorem truncation_diagnostics_witness :
    (d0.xsec_dict ≠ []) ∧
    (∀ j : ℕ, (0 : ℝ) ≤ (fun _ : ℕ => (0 : ℝ)) j ∧
      (fun _ : ℕ => (0 : ℝ)) j ≤ sum_dict_vals d0.xsec_dict) ∧
    ((∀ (fuel j : ℕ) (st : QState) (es : List ℝ) (diag : List Diag),
        decayLoop (fun _ => []) (fun _ _ _ _ => 0) (fun _ => 0) (fuel + 1) j
            st = some (es, diag, true) →
        ∃ n, Diag.decayCapHit n ∈ diag) ∧
      (∀ (fuel i : ℕ) (s : DetState),
        (genLoop d0 (fun _ => 0) (fun _ => 0) fuel i s).2.1 = [])) :=
  ⟨by simp [d0, Detector.init],
    fun j => ⟨le_refl 0, by norm_num [d0, Detector.init, sum_dict_vals]⟩,
    truncation_diagnostics (fun _ => []) (fun _ _ _ _ => 0) (fun _ => 0) d0
      (fun _ => 0) (fun _ => 0) (by simp [d0, Detector.init])
      (fun j => ⟨le_refl 0, by norm_num [d0, Detector.init, sum_dict_vals]⟩)⟩

/-- C6 fails on the code (code bug): when the external rate calculator
returns no transitions for the captured state `(2, 0, 0)` (with `n = 2 >
1`), `photon_generation` performs the weighted draw over the empty mapping
anyway — nothing is detected beforehand — and the scan falls through to the
integer sentinel, whose subscripting crashes (`TypeError`), modelled here
by the `none` result. -/
theorem photon_generation_empty_rates_crash :
    photon_generation (fun _ => []) (fun _ _ => 0) (fun _ _ _ _ => 0)
      (fun _ _ => 0) 0
      [(((0 : ℝ), (0 : ℝ), (0 : ℝ)), some ((2 : ℕ), (0 : ℕ), (0 : ℤ)))] =
      none := by
  simp only [photon_generation]
  rw [show (1000 : ℕ) = 999 + 1 from rfl, decayLoop_succ]
  norm_num [key_val_by_weight, kvbwAux]

end
